import Mathlib

/-!
Verification development for the single-script repository `concat.py`.

The script aggregates per-subject acoustic-feature tables into one table,
projects it onto a fixed 21-column list, writes the raw projection, imputes
the 16 feature columns with each column's median, and writes the result.

Shallow embedding notes:
* A table (`DataFrame`) is a column-name list plus a list of rows; a cell is
  missing (`na`, modelling NaN), a rational number, or a string.
* File discovery and parquet I/O are abstracted: the pipeline takes the list
  of decoded input tables (in discovery order) and returns the raw projected
  table and the imputed table, or the error on which the script aborts.
* `pd.concat([...], ignore_index=True)` raises `ValueError` on an empty list;
  this is modelled by `concatAll` returning `none`.  On non-empty input it
  aligns tables on the union of their columns (order of first appearance),
  filling absent columns with NaN.
* `final_df[columns_to_keep]` raises `KeyError` when a requested column is
  absent; `project` returns `none` in that case.
* `SimpleImputer(strategy='median').fit_transform` keeps only the columns
  having at least one observed (numeric) value, replacing NaN by the column
  median (numpy semantics: middle of the sorted observed values, mean of the
  two middles when their count is even).  `pd.DataFrame(arr, columns=features)`
  raises `ValueError` when the array width differs from the 16 names;
  `rebuild` returns `none` then.  (sklearn would reject non-numeric feature
  cells outright; such cells do not occur in the modelled data and are
  treated as unobserved here.)
-/

namespace VoiceConcat

/-- A table cell: missing (NaN), a numeric value, or a string value. -/
inductive Cell where
  | na : Cell
  | num : ℚ → Cell
  | str : String → Cell
deriving DecidableEq

/-- An in-memory table: column names plus rows of cells (positional). -/
structure DataFrame where
  cols : List String
  rows : List (List Cell)
deriving DecidableEq

/-- The errors on which the script aborts. -/
inductive PErr where
  | noObjectsToConcatenate : PErr
  | missingColumn : PErr
  | shapeMismatch : PErr
deriving DecidableEq

/-- Result of a pipeline stage: a value, or the error that aborts the run. -/
inductive Res (α : Type) where
  | ok : α → Res α
  | err : PErr → Res α
deriving DecidableEq

/-- First cell associated to column name `c` in an association list. -/
def lookupC (c : String) : List (String × Cell) → Option Cell
  | [] => none
  | p :: rest => if c = p.1 then some p.2 else lookupC c rest

/-- The cell of row `r` (laid out along `cols`) at column `c`; NaN if absent. -/
def cellOf (cols : List String) (r : List Cell) (c : String) : Cell :=
  (lookupC c (cols.zip r)).getD Cell.na

/-- Numeric view of a cell; `none` for missing or non-numeric cells. -/
def asNum : Cell → Option ℚ
  | Cell.num q => some q
  | _ => none

/-- The observed (non-missing numeric) values of column `c`, in row order. -/
def colVals (df : DataFrame) (c : String) : List ℚ :=
  df.rows.filterMap (fun r => asNum (cellOf df.cols r c))

/-- Insert a value into an already sorted list of rationals. -/
def insertSorted (x : ℚ) : List ℚ → List ℚ
  | [] => [x]
  | y :: ys => if x ≤ y then x :: y :: ys else y :: insertSorted x ys

/-- Insertion sort on rationals. -/
def sortQ : List ℚ → List ℚ
  | [] => []
  | x :: xs => insertSorted x (sortQ xs)

/-- Median with numpy semantics: middle of the sorted values when their count
is odd, mean of the two middle values when it is even; `none` on `[]`. -/
def median (l : List ℚ) : Option ℚ :=
  let s := sortQ l
  if s.length = 0 then none
  else if s.length % 2 = 1 then some (s.getD (s.length / 2) 0)
  else some ((s.getD (s.length / 2 - 1) 0 + s.getD (s.length / 2) 0) / 2)

/-- The fixed projection list of `concat.py` (line 24), in source order. -/
def columns_to_keep : List String :=
  ["ts", "subject_id", "week", "date", "cppall", "zcrall", "normpeakall",
   "spectralTiltall", "LHratioall", "H1H2all", "periodicity", "level", "freq",
   "dBcms2", "cppall_2048", "acflow", "mfdr", "oq", "naq", "h1h2", "voicedRMS"]

/-- The fixed feature list of `concat.py` (line 29), in source order. -/
def features : List String :=
  ["cppall", "zcrall", "normpeakall", "spectralTiltall", "LHratioall",
   "H1H2all", "periodicity", "level", "freq", "dBcms2", "cppall_2048",
   "acflow", "mfdr", "oq", "naq", "h1h2"]

/-- Re-lay row `r` (laid out along `cols`) along the column list `sel`,
filling NaN for columns absent from `cols`. -/
def projRow (cols sel : List String) (r : List Cell) : List Cell :=
  sel.map (fun c => cellOf cols r c)

/-- Union of the column lists of `dfs`, in order of first appearance
(`pd.concat` column alignment). -/
def allCols (dfs : List DataFrame) : List String :=
  dfs.foldl (fun acc d => acc ++ d.cols.filter (fun c => !(acc.contains c))) []

/-- Model of `pd.concat(dfs, ignore_index=True)` (line 23): `none` on an
empty list (pandas raises `ValueError: No objects to concatenate`), else the
row-wise union with rows re-laid along the union of the columns. -/
def concatAll (dfs : List DataFrame) : Option DataFrame :=
  if dfs.isEmpty then none
  else some ⟨allCols dfs,
    (dfs.map (fun d => d.rows.map (fun r => projRow d.cols (allCols dfs) r))).flatten⟩

/-- Model of `df[sel]` (lines 27 and 38): `none` when some requested column
is absent (pandas raises `KeyError`), else the column-projected table. -/
def project (df : DataFrame) (sel : List String) : Option DataFrame :=
  if sel.all (fun c => df.cols.contains c) then
    some ⟨sel, df.rows.map (fun r => projRow df.cols sel r)⟩
  else none

/-- The value `SimpleImputer(strategy='median')` produces for the cell of row
`r` at feature column `c`: the observed value if present, else the column
median. -/
def imputeVal (x : DataFrame) (r : List Cell) (c : String) : ℚ :=
  match cellOf x.cols r c with
  | Cell.num q => q
  | _ => (median (colVals x c)).getD 0

/-- The columns the imputer keeps: those with at least one observed value
(`SimpleImputer` drops entirely-missing columns from its output). -/
def keptCols (x : DataFrame) : List String :=
  x.cols.filter (fun c => !(colVals x c).isEmpty)

/-- Model of lines 40-42: `imputer.fit_transform(X)` followed by
`pd.DataFrame(X_imputed, columns=features)`.  The array produced by the
imputer has one column per kept column, so the DataFrame constructor fails
(`none`) unless all 16 feature columns were kept. -/
def rebuild (x : DataFrame) : Option DataFrame :=
  if (keptCols x).length = features.length then
    some ⟨features,
      x.rows.map (fun r => (keptCols x).map (fun c => Cell.num (imputeVal x r c)))⟩
  else none

/-- Model of line 43, `final_df[features] = X_imputed_df[features]`: rows are
aligned positionally (both frames carry the fresh 0-based index); in each row
the cells of feature columns are overwritten from `src`, all other cells kept. -/
def assignFeatures (df src : DataFrame) : DataFrame :=
  ⟨df.cols,
   (df.rows.zip src.rows).map (fun p =>
     (df.cols.zip p.1).map (fun q =>
       if features.contains q.1 then (lookupC q.1 (src.cols.zip p.2)).getD q.2
       else q.2))⟩

/-- The whole pipeline of `concat.py` on the discovered input tables:
concatenate, project onto `columns_to_keep` (the raw output, line 33), build
the feature matrix, impute, and write the feature columns back (the imputed
output, line 45).  Returns the raw and the imputed table, or the error on
which the script aborts. -/
def run (dfs : List DataFrame) : Res (DataFrame × DataFrame) :=
  match concatAll dfs with
  | none => Res.err PErr.noObjectsToConcatenate
  | some cdf =>
    match project cdf columns_to_keep with
    | none => Res.err PErr.missingColumn
    | some raw =>
      match project raw features with
      | none => Res.err PErr.missingColumn
      | some x =>
        match rebuild x with
        | none => Res.err PErr.shapeMismatch
        | some ximp => Res.ok (raw, assignFeatures raw ximp)

/-- The raw (pre-imputation) output table of a run, when the run got there. -/
def getRaw : Res (DataFrame × DataFrame) → Option DataFrame
  | Res.ok p => some p.1
  | Res.err _ => none

/-- The imputed output table of a run, when the run succeeded. -/
def getFinal : Res (DataFrame × DataFrame) → Option DataFrame
  | Res.ok p => some p.2
  | Res.err _ => none

/-- The cell at row index `i`, column `c` of a table. -/
def cellAt (df : DataFrame) (c : String) (i : Nat) : Option Cell :=
  (df.rows.get? i).map (fun r => cellOf df.cols r c)

/-- The full column `c` of a table, in row order. -/
def colCells (df : DataFrame) (c : String) : List Cell :=
  df.rows.map (fun r => cellOf df.cols r c)

/-- The cell at row `i`, column `c` of the imputed output of a run. -/
def finalCell (res : Res (DataFrame × DataFrame)) (c : String) (i : Nat) :
    Option Cell :=
  match res with
  | Res.ok p => cellAt p.2 c i
  | Res.err _ => none

/-! Concrete tables used to instantiate the theorems below.  `mkRow` builds a
row along `columns_to_keep`: the four non-feature cells, the `cppall` cell,
the fifteen remaining feature cells (all set to `Cell.num v`), and the
`voicedRMS` cell. -/

/-- A 21-cell row along `columns_to_keep` with given `cppall`, a common value
for the 15 remaining feature columns, and given `voicedRMS`. -/
def mkRow (t d : String) (cpp : Cell) (v : ℚ) (vr : Cell) : List Cell :=
  [Cell.str t, Cell.str "NF1", Cell.num 1, Cell.str d, cpp] ++
    List.replicate 15 (Cell.num v) ++ [vr]

/-- Two-row input table: `cppall` is missing in the first row (column values
`[missing, 5]`), every other feature column holds `[2, 4]`, and `voicedRMS`
holds `[missing, 7]`. -/
def exDf : DataFrame :=
  ⟨columns_to_keep,
   [mkRow "t1" "d1" Cell.na 2 Cell.na, mkRow "t2" "d2" (Cell.num 5) 4 (Cell.num 7)]⟩

/-- The imputed output for `exDf`: the missing `cppall` becomes its column
median `5`, the other feature values are unchanged, `voicedRMS` keeps its
missing value. -/
def exFinal : DataFrame :=
  ⟨columns_to_keep,
   [mkRow "t1" "d1" (Cell.num 5) 2 Cell.na, mkRow "t2" "d2" (Cell.num 5) 4 (Cell.num 7)]⟩

/-- Four-row table whose `cppall` column holds `[1, 3, missing, 7]`. -/
def ex3a : DataFrame :=
  ⟨columns_to_keep,
   [mkRow "a1" "d" (Cell.num 1) 1 (Cell.num 0), mkRow "a2" "d" (Cell.num 3) 1 (Cell.num 0),
    mkRow "a3" "d" Cell.na 1 (Cell.num 0), mkRow "a4" "d" (Cell.num 7) 1 (Cell.num 0)]⟩

/-- Four-row table whose `cppall` column holds `[2, 4, missing, missing]`. -/
def ex3b : DataFrame :=
  ⟨columns_to_keep,
   [mkRow "b1" "d" (Cell.num 2) 1 (Cell.num 0), mkRow "b2" "d" (Cell.num 4) 1 (Cell.num 0),
    mkRow "b3" "d" Cell.na 1 (Cell.num 0), mkRow "b4" "d" Cell.na 1 (Cell.num 0)]⟩

/-- An input table carrying only a `ts` column, so that projection must fail. -/
def exMiss : DataFrame := ⟨["ts"], [[Cell.str "t0"]]⟩

/-- A one-row input table whose `h1h2` feature column is entirely missing. -/
def exDrop : DataFrame :=
  ⟨columns_to_keep,
   [[Cell.str "t", Cell.str "PF1", Cell.num 1, Cell.str "d", Cell.num 1] ++
      List.replicate 14 (Cell.num 1) ++ [Cell.na, Cell.num 0]]⟩

/-- The consolidated table for the two-file input `[exDf, exDf]`. -/
def exCat : DataFrame :=
  ⟨columns_to_keep,
   [mkRow "t1" "d1" Cell.na 2 Cell.na, mkRow "t2" "d2" (Cell.num 5) 4 (Cell.num 7),
    mkRow "t1" "d1" Cell.na 2 Cell.na, mkRow "t2" "d2" (Cell.num 5) 4 (Cell.num 7)]⟩

/-- A consolidated table with an extra column beyond the fixed list. -/
def exExtra : DataFrame :=
  ⟨columns_to_keep ++ ["junk"],
   [mkRow "t1" "d1" (Cell.num 1) 1 (Cell.num 0) ++ [Cell.num 9]]⟩

/-! Helper lemmas about lookups, projection, sorting and the median. -/

theorem lookupC_zip_map_self (f : String → Cell) (cs : List String) (c : String)
    (h : c ∈ cs) : lookupC c (cs.zip (cs.map f)) = some (f c) := by
  induction cs with
  | nil => cases h
  | cons c0 cs ih =>
    simp only [List.map_cons, List.zip_cons_cons, lookupC]
    by_cases hc : c = c0
    · subst hc; simp
    · rw [if_neg hc]
      exact ih (by rcases List.mem_cons.mp h with h1 | h2
                   · exact absurd h1 hc
                   · exact h2)

theorem cellOf_map_self (f : String → Cell) (cs : List String) (c : String)
    (h : c ∈ cs) : cellOf cs (cs.map f) c = f c := by
  unfold cellOf
  rw [lookupC_zip_map_self f cs c h]
  rfl

theorem lookupC_zip_map (cols : List String) (r : List Cell)
    (g : String → Cell → Cell) (c : String) :
    lookupC c (cols.zip ((cols.zip r).map (fun p => g p.1 p.2))) =
      (lookupC c (cols.zip r)).map (fun x => g c x) := by
  induction cols generalizing r with
  | nil => simp [lookupC]
  | cons c0 cols ih =>
    cases r with
    | nil => simp [lookupC]
    | cons x xs =>
      simp only [List.zip_cons_cons, List.map_cons, lookupC]
      by_cases hc : c = c0
      · subst hc; simp
      · rw [if_neg hc, if_neg hc]
        exact ih xs

theorem projRow_self (cols : List String) (r : List Cell)
    (hnd : cols.Nodup) (hl : r.length = cols.length) :
    projRow cols cols r = r := by
  induction cols generalizing r with
  | nil =>
    cases r with
    | nil => rfl
    | cons x xs => simp at hl
  | cons c0 cs ih =>
    cases r with
    | nil => simp at hl
    | cons x xs =>
      have hnd' := List.nodup_cons.mp hnd
      have hl' : xs.length = cs.length := by simpa using hl
      simp only [projRow, List.map_cons]
      refine congrArg₂ List.cons ?_ ?_
      · simp [cellOf, lookupC]
      · have hcongr : ∀ c ∈ cs, cellOf (c0 :: cs) (x :: xs) c = cellOf cs xs c := by
          intro c hcmem
          have hne : ¬c = c0 := fun he => hnd'.1 (he ▸ hcmem)
          simp only [cellOf, List.zip_cons_cons, lookupC, if_neg hne]
          rfl
        rw [List.map_congr_left hcongr]
        exact ih xs hnd'.2 hl'

theorem insertSorted_length (x : ℚ) (l : List ℚ) :
    (insertSorted x l).length = l.length + 1 := by
  induction l with
  | nil => rfl
  | cons y ys ih =>
    by_cases h : x ≤ y
    · simp [insertSorted, h]
    · simp [insertSorted, h, ih]

theorem sortQ_length (l : List ℚ) : (sortQ l).length = l.length := by
  induction l with
  | nil => rfl
  | cons x xs ih => simp [sortQ, insertSorted_length, ih]

theorem median_isSome {l : List ℚ} (h : l ≠ []) : ∃ m, median l = some m := by
  unfold median
  have hne : (sortQ l).length ≠ 0 := by
    rw [sortQ_length]
    exact fun h0 => h (List.length_eq_zero.mp h0)
  rw [if_neg hne]
  by_cases hp : (sortQ l).length % 2 = 1
  · rw [if_pos hp]; exact ⟨_, rfl⟩
  · rw [if_neg hp]; exact ⟨_, rfl⟩

theorem mem_of_contains {cs : List String} {c : String}
    (h : cs.contains c = true) : c ∈ cs :=
  List.elem_iff.mp h

theorem contains_of_mem {cs : List String} {c : String}
    (h : c ∈ cs) : cs.contains c = true :=
  List.elem_iff.mpr h

theorem zip_self_map {α β : Type} (l : List α) (g : α → β) :
    l.zip (l.map g) = l.map (fun a => (a, g a)) := by
  induction l with
  | nil => rfl
  | cons a t ih => simp [ih]

theorem allCols_const (cols0 : List String) (dfs : List DataFrame)
    (h : ∀ d ∈ dfs, d.cols = cols0) (hne : dfs ≠ []) : allCols dfs = cols0 := by
  have hnil : ∀ l : List String,
      (l.filter fun c => !((([] : List String)).contains c)) = l := by
    intro l
    induction l with
    | nil => rfl
    | cons a t ih => simp [List.filter_cons, ih]
  have hstep : ∀ d : DataFrame, d.cols = cols0 →
      (cols0 ++ d.cols.filter fun c => !(cols0.contains c)) = cols0 := by
    intro d hd
    rw [hd]
    have hemp : (cols0.filter fun c => !(cols0.contains c)) = [] := by
      rw [List.filter_eq_nil_iff]
      intro a ha
      show ¬(!(cols0.contains a)) = true
      rw [contains_of_mem ha]
      simp
    rw [hemp, List.append_nil]
  have haux : ∀ rest : List DataFrame, (∀ d ∈ rest, d.cols = cols0) →
      rest.foldl (fun acc d => acc ++ d.cols.filter fun c => !(acc.contains c))
        cols0 = cols0 := by
    intro rest
    induction rest with
    | nil => intro _; rfl
    | cons d rest ih =>
      intro hall
      rw [List.foldl_cons, hstep d (hall d (List.mem_cons_self d rest))]
      exact ih (fun d' hd' => hall d' (List.mem_cons_of_mem d hd'))
  cases dfs with
  | nil => exact absurd rfl hne
  | cons d rest =>
    unfold allCols
    rw [List.foldl_cons]
    have h0 : ([] : List String) ++
        (d.cols.filter fun c => !(([] : List String).contains c)) = cols0 := by
      rw [List.nil_append, hnil, h d (List.mem_cons_self d rest)]
    rw [h0]
    exact haux rest (fun d' hd' => h d' (List.mem_cons_of_mem d hd'))

theorem concatAll_eq_some {dfs : List DataFrame} {cdf : DataFrame}
    (h : concatAll dfs = some cdf) :
    dfs ≠ [] ∧
    cdf = ⟨allCols dfs,
      (dfs.map (fun d => d.rows.map
        (fun r => projRow d.cols (allCols dfs) r))).flatten⟩ := by
  unfold concatAll at h
  by_cases he : dfs.isEmpty
  · rw [if_pos he] at h
    cases h
  · rw [if_neg he] at h
    refine ⟨fun hn => he (by rw [hn]; rfl), (Option.some.inj h).symm⟩

theorem project_eq_some {df : DataFrame} {sel : List String} {x : DataFrame}
    (h : project df sel = some x) :
    x = ⟨sel, df.rows.map (fun r => projRow df.cols sel r)⟩ := by
  unfold project at h
  by_cases hc : (sel.all fun c => df.cols.contains c) = true
  · rw [if_pos hc] at h
    exact (Option.some.inj h).symm
  · rw [if_neg hc] at h
    cases h

theorem project_isSome {df : DataFrame} {sel : List String}
    (h : ∀ c ∈ sel, c ∈ df.cols) :
    project df sel = some ⟨sel, df.rows.map (fun r => projRow df.cols sel r)⟩ := by
  unfold project
  rw [if_pos ?_]
  rw [List.all_eq_true]
  intro c hc
  exact contains_of_mem (h c hc)

theorem project_eq_none {df : DataFrame} {sel : List String} {c : String}
    (hc : c ∈ sel) (hm : c ∉ df.cols) : project df sel = none := by
  unfold project
  rw [if_neg ?_]
  rw [List.all_eq_true]
  intro hall
  exact hm (mem_of_contains (hall c hc))

theorem colVals_project {df x : DataFrame} {sel : List String} {c : String}
    (hc : c ∈ sel) (h : project df sel = some x) :
    colVals x c = colVals df c := by
  have hX := project_eq_some h
  subst hX
  unfold colVals
  simp only [List.filterMap_map]
  have hfun : ∀ r ∈ df.rows,
      ((fun r0 => asNum (cellOf sel r0 c)) ∘
        (fun r0 => projRow df.cols sel r0)) r = asNum (cellOf df.cols r c) := by
    intro r _
    have : projRow df.cols sel r = sel.map (fun c0 => cellOf df.cols r c0) := rfl
    simp only [Function.comp, this, cellOf_map_self _ sel c hc]
  exact List.filterMap_congr hfun

theorem rebuild_eq_some {x ximp : DataFrame} (h : rebuild x = some ximp) :
    (keptCols x).length = features.length ∧
    ximp = ⟨features, x.rows.map
      (fun r => (keptCols x).map (fun c => Cell.num (imputeVal x r c)))⟩ := by
  unfold rebuild at h
  by_cases hc : (keptCols x).length = features.length
  · rw [if_pos hc] at h
    exact ⟨hc, (Option.some.inj h).symm⟩
  · rw [if_neg hc] at h
    cases h

theorem rebuild_eq_none {x : DataFrame}
    (h : (keptCols x).length ≠ features.length) : rebuild x = none := by
  unfold rebuild
  rw [if_neg h]

theorem keptCols_eq {x : DataFrame} (hx : x.cols = features)
    (h : (keptCols x).length = features.length) : keptCols x = features := by
  have hsub : (keptCols x).Sublist x.cols := List.filter_sublist x.cols
  rw [hx] at hsub
  exact hsub.eq_of_length (by rw [h])

theorem run_ok_inv {dfs : List DataFrame} {raw final : DataFrame}
    (h : run dfs = Res.ok (raw, final)) :
    ∃ cdf x ximp, concatAll dfs = some cdf ∧
      project cdf columns_to_keep = some raw ∧
      project raw features = some x ∧ rebuild x = some ximp ∧
      final = assignFeatures raw ximp := by
  cases h1 : concatAll dfs with
  | none => simp only [run, h1] at h; exact Res.noConfusion h
  | some cdf =>
    simp only [run, h1] at h
    cases h2 : project cdf columns_to_keep with
    | none => simp only [h2] at h; exact Res.noConfusion h
    | some raw0 =>
      simp only [h2] at h
      cases h3 : project raw0 features with
      | none => simp only [h3] at h; exact Res.noConfusion h
      | some x0 =>
        simp only [h3] at h
        cases h4 : rebuild x0 with
        | none => simp only [h4] at h; exact Res.noConfusion h
        | some ximp0 =>
          simp only [h4] at h
          have hp : raw0 = raw ∧ assignFeatures raw0 ximp0 = final := by
            have hinj := Res.ok.inj h
            exact ⟨congrArg Prod.fst hinj, congrArg Prod.snd hinj⟩
          obtain ⟨e1, e2⟩ := hp
          subst e1
          exact ⟨cdf, x0, ximp0, rfl, h2, h3, h4, e2.symm⟩

theorem features_sub_keep : ∀ c ∈ features, c ∈ columns_to_keep := by decide

theorem cellOf_assign_not_feature (cols srcCols : List String) (r s : List Cell)
    (c : String) (hc : features.contains c = false) :
    cellOf cols ((cols.zip r).map (fun q =>
      if features.contains q.1 then (lookupC q.1 (srcCols.zip s)).getD q.2
      else q.2)) c = cellOf cols r c := by
  unfold cellOf
  rw [lookupC_zip_map cols r
    (fun a v => if features.contains a then (lookupC a (srcCols.zip s)).getD v else v) c]
  cases lookupC c (cols.zip r) with
  | none => rfl
  | some v => rw [hc]; simp

theorem cellOf_assign_feature (cols : List String) (f s' : String → Cell)
    (c : String) (hcc : c ∈ cols) (hcf : c ∈ features) :
    cellOf cols ((cols.zip (cols.map f)).map (fun q =>
      if features.contains q.1 then
        (lookupC q.1 (features.zip (features.map s'))).getD q.2
      else q.2)) c = s' c := by
  unfold cellOf
  rw [lookupC_zip_map cols (cols.map f)
    (fun a v => if features.contains a then
      (lookupC a (features.zip (features.map s'))).getD v else v) c]
  rw [lookupC_zip_map_self f cols c hcc]
  rw [contains_of_mem hcf]
  simp [lookupC_zip_map_self s' features c hcf]

theorem run_ok_cells {dfs : List DataFrame} {raw final : DataFrame}
    (h : run dfs = Res.ok (raw, final)) :
    ∃ x : DataFrame,
      raw.cols = columns_to_keep ∧
      project raw features = some x ∧
      keptCols x = features ∧
      final.cols = raw.cols ∧
      final.rows.length = raw.rows.length ∧
      (∀ c : String, features.contains c = false →
        colCells final c = colCells raw c) ∧
      (∀ c ∈ features, ∀ i : Nat, ∀ r : List Cell, raw.rows.get? i = some r →
        cellAt final c i =
          some (Cell.num (imputeVal x (projRow raw.cols features r) c))) := by
  obtain ⟨cdf, x, ximp, h1, h2, h3, h4, h5⟩ := run_ok_inv h
  have hrw := project_eq_some h2
  have hrawcols : raw.cols = columns_to_keep := by rw [hrw]
  have hshape : ∀ r ∈ raw.rows, ∃ f, r = raw.cols.map f := by
    intro r hr
    rw [hrw] at hr
    simp only [List.mem_map] at hr
    obtain ⟨a, _, ha⟩ := hr
    refine ⟨fun c => cellOf cdf.cols a c, ?_⟩
    rw [← ha, hrw]
    rfl
  have hx := project_eq_some h3
  have hxcols : x.cols = features := by rw [hx]
  have hxrows : x.rows = raw.rows.map (fun r => projRow raw.cols features r) := by
    rw [hx]
  obtain ⟨hlen, hximp⟩ := rebuild_eq_some h4
  have hkept : keptCols x = features := keptCols_eq hxcols hlen
  have hxicols : ximp.cols = features := by rw [hximp]
  have hxirows : ximp.rows = raw.rows.map
      (fun r => features.map (fun c =>
        Cell.num (imputeVal x (projRow raw.cols features r) c))) := by
    rw [hximp]
    show x.rows.map _ = _
    rw [hkept, hxrows, List.map_map]
    rfl
  have hfcols : final.cols = raw.cols := by rw [h5]; rfl
  have hfrows : final.rows = raw.rows.map (fun r =>
      (raw.cols.zip r).map (fun q =>
        if features.contains q.1 then
          (lookupC q.1 (ximp.cols.zip (features.map (fun c =>
            Cell.num (imputeVal x (projRow raw.cols features r) c))))).getD q.2
        else q.2)) := by
    rw [h5]
    show (raw.rows.zip ximp.rows).map _ = _
    rw [hxirows, zip_self_map raw.rows, List.map_map]
    rfl
  refine ⟨x, hrawcols, h3, hkept, hfcols, ?_, ?_, ?_⟩
  · rw [hfrows, List.length_map]
  · intro c hc
    unfold colCells
    rw [hfcols, hfrows, List.map_map]
    refine List.map_congr_left ?_
    intro r _
    exact cellOf_assign_not_feature raw.cols ximp.cols r _ c hc
  · intro c hcf i r hget
    have hmem : r ∈ raw.rows := List.get?_mem hget
    obtain ⟨f, hf⟩ := hshape r hmem
    unfold cellAt
    rw [hfrows, List.get?_map, hget, Option.map_some', Option.map_some']
    rw [hfcols, hxicols, hf]
    exact congrArg some (cellOf_assign_feature raw.cols f
      (fun c0 => Cell.num (imputeVal x (projRow raw.cols features (raw.cols.map f)) c0))
      c (by rw [hrawcols]; exact features_sub_keep c hcf) hcf)

/-! The claims. -/

/-- C1: after imputation, every feature column of a completed run has no
missing value left (every cell of the 16 feature columns is numeric), and
every formerly-missing entry has been replaced by that column's median.  A
run only completes when every feature column has an observed value, so the
premise of the claim is automatic on success. -/
theorem claim_C1_imputation_totality (dfs : List DataFrame)
    (raw final : DataFrame) (c : String)
    (h : run dfs = Res.ok (raw, final)) (hc : c ∈ features) :
    features.length = 16 ∧
    (∀ i : Nat, ∀ cell : Cell, cellAt final c i = some cell →
      ∃ q : ℚ, cell = Cell.num q) ∧
    (∀ i : Nat, cellAt raw c i = some Cell.na →
      ∃ m : ℚ, median (colVals raw c) = some m ∧
        cellAt final c i = some (Cell.num m)) := by
  obtain ⟨x, hrawcols, hproj, hkept, hfcols, hflen, hnonf, hfeat⟩ := run_ok_cells h
  have hxcols : x.cols = features := by rw [project_eq_some hproj]
  refine ⟨by decide, ?_, ?_⟩
  · intro i cell hcell
    obtain ⟨fr, hfr⟩ : ∃ fr, final.rows.get? i = some fr := by
      unfold cellAt at hcell
      cases hfr0 : final.rows.get? i with
      | none => rw [hfr0] at hcell; cases hcell
      | some fr => exact ⟨fr, rfl⟩
    obtain ⟨hi, _⟩ := List.get?_eq_some.mp hfr
    rw [hflen] at hi
    have hg : raw.rows.get? i = some (raw.rows.get ⟨i, hi⟩) := List.get?_eq_get hi
    have hval := hfeat c hc i _ hg
    rw [hval] at hcell
    exact ⟨_, (Option.some.inj hcell).symm⟩
  · intro i hna
    unfold cellAt at hna
    cases hg : raw.rows.get? i with
    | none => rw [hg] at hna; cases hna
    | some r =>
      rw [hg] at hna
      simp only [Option.map_some'] at hna
      have hcell : cellOf raw.cols r c = Cell.na := Option.some.inj hna
      have hval := hfeat c hc i r hg
      have hcellx : cellOf x.cols (projRow raw.cols features r) c = Cell.na := by
        rw [hxcols]
        show cellOf features (features.map (fun c0 => cellOf raw.cols r c0)) c
          = Cell.na
        rw [cellOf_map_self _ features c hc]
        exact hcell
      have hvals : colVals x c = colVals raw c := colVals_project hc hproj
      have hne : colVals raw c ≠ [] := by
        have hcmem : c ∈ keptCols x := by rw [hkept]; exact hc
        unfold keptCols at hcmem
        rw [List.mem_filter] at hcmem
        have hb := hcmem.2
        rw [hvals] at hb
        intro hnil
        rw [hnil] at hb
        simp at hb
      obtain ⟨m, hm⟩ := median_isSome hne
      refine ⟨m, hm, ?_⟩
      rw [hval]
      have hivm : imputeVal x (projRow raw.cols features r) c = m := by
        unfold imputeVal
        simp only [hcellx]
        rw [hvals, hm]
        rfl
      rw [hivm]

/-- C1 witness: the two-row example run, instantiated at the feature column
`cppall`, whose missing entry is filled with the column median `5`. -/
theorem claim_C1_witness :
    features.length = 16 ∧
    (∀ i : Nat, ∀ cell : Cell, cellAt exFinal "cppall" i = some cell →
      ∃ q : ℚ, cell = Cell.num q) ∧
    (∀ i : Nat, cellAt exDf "cppall" i = some Cell.na →
      ∃ m : ℚ, median (colVals exDf "cppall") = some m ∧
        cellAt exFinal "cppall" i = some (Cell.num m)) :=
  claim_C1_imputation_totality [exDf] exDf exFinal "cppall"
    (by with_unfolding_all rfl) (by decide)

/-- C2: the consolidated table has as many rows as all discovered input
files together; and when the input files share one duplicate-free column
list (the intersection assumption of the spec) with well-formed rows, the
consolidated rows are exactly the input files' rows, in file order — every
consolidated row corresponds to exactly one row of exactly one input file. -/
theorem claim_C2_row_conservation (dfs : List DataFrame) (cdf : DataFrame)
    (h : concatAll dfs = some cdf) :
    cdf.rows.length = (dfs.map (fun d => d.rows.length)).sum ∧
    (∀ cols0 : List String, cols0.Nodup →
      (∀ d ∈ dfs, d.cols = cols0) →
      (∀ d ∈ dfs, ∀ r ∈ d.rows, r.length = cols0.length) →
      cdf.rows = (dfs.map DataFrame.rows).flatten) := by
  obtain ⟨hne, hcdf⟩ := concatAll_eq_some h
  constructor
  · rw [hcdf]
    show ((dfs.map _).flatten).length = _
    rw [List.length_flatten, List.map_map]
    congr 1
    refine List.map_congr_left ?_
    intro d _
    simp [Function.comp]
  · intro cols0 hnd hcols hlens
    have hac : allCols dfs = cols0 := allCols_const cols0 dfs hcols hne
    rw [hcdf]
    show ((dfs.map _).flatten) = _
    congr 1
    refine List.map_congr_left ?_
    intro d hd
    show d.rows.map (fun r => projRow d.cols (allCols dfs) r) = d.rows
    rw [hac, hcols d hd]
    have hid : ∀ r ∈ d.rows, projRow cols0 cols0 r = r := fun r hr =>
      projRow_self cols0 r hnd (by rw [hlens d hd r hr])
    rw [List.map_congr_left hid]
    simp

/-- C2 witness: two discovered files of two rows each consolidate into four
rows, which are exactly the input rows in file order. -/
theorem claim_C2_witness :
    exCat.rows.length = ([exDf, exDf].map (fun d => d.rows.length)).sum ∧
    exCat.rows = ([exDf, exDf].map DataFrame.rows).flatten := by
  have happ := claim_C2_row_conservation [exDf, exDf] exCat
    (by with_unfolding_all rfl)
  exact ⟨happ.1, happ.2 columns_to_keep (by decide) (by decide) (by decide)⟩

/-- C3: the imputation value is the standard median of the column's observed
values: for the column `[1, 3, missing, 7]` the missing entry is imputed
with `3`, for `[2, 4, missing, missing]` both missing entries are imputed
with `3` (the average of the two middle values `2` and `4`). -/
theorem claim_C3_median_examples :
    median [1, 3, 7] = some 3 ∧ median [2, 4] = some 3 ∧
    colVals ex3a "cppall" = [1, 3, 7] ∧ colVals ex3b "cppall" = [2, 4] ∧
    finalCell (run [ex3a]) "cppall" 2 = some (Cell.num 3) ∧
    finalCell (run [ex3b]) "cppall" 2 = some (Cell.num 3) ∧
    finalCell (run [ex3b]) "cppall" 3 = some (Cell.num 3) := by
  refine ⟨?_, ?_, ?_, ?_, ?_, ?_, ?_⟩ <;> with_unfolding_all rfl

/-- C4: imputation modifies only the feature columns — the non-feature
columns `ts`, `subject_id`, `week`, `date` are identical between the raw
projected table and the imputed table, and row count (with positional row
order) is preserved. -/
theorem claim_C4_frame_effect (dfs : List DataFrame) (raw final : DataFrame)
    (h : run dfs = Res.ok (raw, final)) :
    final.cols = raw.cols ∧ final.rows.length = raw.rows.length ∧
    ∀ c ∈ (["ts", "subject_id", "week", "date"] : List String),
      colCells final c = colCells raw c := by
  obtain ⟨x, hrawcols, hproj, hkept, hfcols, hflen, hnonf, _⟩ := run_ok_cells h
  have hnf : ∀ c0 ∈ (["ts", "subject_id", "week", "date"] : List String),
      features.contains c0 = false := by decide
  exact ⟨hfcols, hflen, fun c hcmem => hnonf c (hnf c hcmem)⟩

/-- C4 witness: the two-row example run preserves the four non-feature
columns, the column list and the row count. -/
theorem claim_C4_witness :
    exFinal.cols = exDf.cols ∧ exFinal.rows.length = exDf.rows.length ∧
    ∀ c ∈ (["ts", "subject_id", "week", "date"] : List String),
      colCells exFinal c = colCells exDf c :=
  claim_C4_frame_effect [exDf] exDf exFinal (by with_unfolding_all rfl)

/-- C5: on a consolidated table carrying at least the fixed column list,
projection succeeds and its output has exactly the fixed 21 columns, in the
fixed order, with every other input column discarded. -/
theorem claim_C5_projection_columns (cdf : DataFrame)
    (h : ∀ c ∈ columns_to_keep, c ∈ cdf.cols) :
    (project cdf columns_to_keep).map DataFrame.cols =
      some ["ts", "subject_id", "week", "date", "cppall", "zcrall",
        "normpeakall", "spectralTiltall", "LHratioall", "H1H2all",
        "periodicity", "level", "freq", "dBcms2", "cppall_2048", "acflow",
        "mfdr", "oq", "naq", "h1h2", "voicedRMS"] ∧
    ∀ raw : DataFrame, project cdf columns_to_keep = some raw →
      ∀ c, c ∈ raw.cols → c ∈ columns_to_keep := by
  have hp := project_isSome h
  constructor
  · rw [hp]
    rfl
  · intro raw hraw c hc
    have hr := project_eq_some hraw
    rw [hr] at hc
    exact hc

/-- C5 witness: a consolidated table with an extra `junk` column projects to
exactly the fixed 21 columns. -/
theorem claim_C5_witness :
    (project exExtra columns_to_keep).map DataFrame.cols =
      some ["ts", "subject_id", "week", "date", "cppall", "zcrall",
        "normpeakall", "spectralTiltall", "LHratioall", "H1H2all",
        "periodicity", "level", "freq", "dBcms2", "cppall_2048", "acflow",
        "mfdr", "oq", "naq", "h1h2", "voicedRMS"] ∧
    ∀ raw : DataFrame, project exExtra columns_to_keep = some raw →
      ∀ c, c ∈ raw.cols → c ∈ columns_to_keep :=
  claim_C5_projection_columns exExtra (by decide)

/-- C6: when a column of the fixed list is missing from the consolidated
table, projection fails (no partial projection, no default value) and the
run aborts with the missing-column error, producing no output table. -/
theorem claim_C6_missing_column (dfs : List DataFrame) (cdf : DataFrame)
    (c : String) (h1 : concatAll dfs = some cdf)
    (hc : c ∈ columns_to_keep) (hm : c ∉ cdf.cols) :
    project cdf columns_to_keep = none ∧
    run dfs = Res.err PErr.missingColumn ∧
    getRaw (run dfs) = none ∧ getFinal (run dfs) = none := by
  have hp : project cdf columns_to_keep = none := project_eq_none hc hm
  have hr : run dfs = Res.err PErr.missingColumn := by
    simp only [run, h1, hp]
  exact ⟨hp, hr, by rw [hr]; rfl, by rw [hr]; rfl⟩

/-- C6 witness: an input file carrying only a `ts` column makes the run
abort on the missing `subject_id` column. -/
theorem claim_C6_witness :
    project exMiss columns_to_keep = none ∧
    run [exMiss] = Res.err PErr.missingColumn ∧
    getRaw (run [exMiss]) = none ∧ getFinal (run [exMiss]) = none :=
  claim_C6_missing_column [exMiss] exMiss "subject_id"
    (by with_unfolding_all rfl) (by decide) (by decide)

/-- C7 counterexample: with zero discovered input files the concatenation
step does not produce an empty table — it produces no table at all (pandas
raises `ValueError: No objects to concatenate`). -/
theorem claim_C7_counterexample : concatAll ([] : List DataFrame) = none := rfl

/-- C7 amended: with zero discovered input files the concatenation step
fails with the no-objects-to-concatenate error and the run aborts with no
output tables (rather than producing an empty 0-row table). -/
theorem claim_C7_empty_aborts :
    run ([] : List DataFrame) = Res.err PErr.noObjectsToConcatenate ∧
    getRaw (run ([] : List DataFrame)) = none ∧
    getFinal (run ([] : List DataFrame)) = none :=
  ⟨rfl, rfl, rfl⟩

/-- C8: the pipeline is deterministic — it is a pure function of the
discovered input tables, so two runs on the same fixed input produce
identical consolidated/projected and imputed outputs. -/
theorem claim_C8_determinism (dfs1 dfs2 : List DataFrame) (h : dfs1 = dfs2) :
    run dfs1 = run dfs2 ∧ getRaw (run dfs1) = getRaw (run dfs2) ∧
    getFinal (run dfs1) = getFinal (run dfs2) := by
  subst h
  exact ⟨rfl, rfl, rfl⟩

/-- C8 witness: re-running on the unchanged two-row example input yields
identical outputs. -/
theorem claim_C8_witness :
    run [exDf] = run [exDf] ∧ getRaw (run [exDf]) = getRaw (run [exDf]) ∧
    getFinal (run [exDf]) = getFinal (run [exDf]) :=
  claim_C8_determinism [exDf] [exDf] rfl

/-- C9: `voicedRMS` is the 21st projected column but is not in the feature
list, so imputation leaves the whole column unchanged and its missing
values survive into the imputed output. -/
theorem claim_C9_voicedRMS_not_imputed (dfs : List DataFrame)
    (raw final : DataFrame) (h : run dfs = Res.ok (raw, final)) :
    columns_to_keep.get? 20 = some "voicedRMS" ∧
    "voicedRMS" ∈ columns_to_keep ∧ "voicedRMS" ∉ features ∧
    colCells final "voicedRMS" = colCells raw "voicedRMS" ∧
    (∀ i : Nat, cellAt raw "voicedRMS" i = some Cell.na →
      cellAt final "voicedRMS" i = some Cell.na) := by
  obtain ⟨x, hrawcols, hproj, hkept, hfcols, hflen, hnonf, _⟩ := run_ok_cells h
  have hcol : colCells final "voicedRMS" = colCells raw "voicedRMS" :=
    hnonf "voicedRMS" (by decide)
  have hca : ∀ df : DataFrame, ∀ c : String, ∀ i : Nat,
      cellAt df c i = (colCells df c).get? i := by
    intro df c i
    unfold cellAt colCells
    rw [List.get?_map]
  refine ⟨by decide, by decide, by decide, hcol, ?_⟩
  intro i hna
  rw [hca final "voicedRMS" i, hcol, ← hca raw "voicedRMS" i]
  exact hna

/-- C9 witness: in the two-row example the missing `voicedRMS` entry of the
first row survives imputation unchanged. -/
theorem claim_C9_witness :
    columns_to_keep.get? 20 = some "voicedRMS" ∧
    "voicedRMS" ∈ columns_to_keep ∧ "voicedRMS" ∉ features ∧
    colCells exFinal "voicedRMS" = colCells exDf "voicedRMS" ∧
    (∀ i : Nat, cellAt exDf "voicedRMS" i = some Cell.na →
      cellAt exFinal "voicedRMS" i = some Cell.na) :=
  claim_C9_voicedRMS_not_imputed [exDf] exDf exFinal (by with_unfolding_all rfl)

/-- C10: when a feature column has no observed value at all, the imputer
drops it, the 16-column rebuild fails on the width mismatch, and the run
aborts before any imputed output is produced. -/
theorem claim_C10_all_missing_aborts (dfs : List DataFrame)
    (cdf raw : DataFrame) (c : String) (h1 : concatAll dfs = some cdf)
    (h2 : project cdf columns_to_keep = some raw)
    (hc : c ∈ features) (hall : colVals raw c = []) :
    run dfs = Res.err PErr.shapeMismatch ∧ getFinal (run dfs) = none := by
  have hrw := project_eq_some h2
  have hrawcols : raw.cols = columns_to_keep := by rw [hrw]
  have h3 : project raw features =
      some ⟨features, raw.rows.map (fun r => projRow raw.cols features r)⟩ :=
    project_isSome (by rw [hrawcols]; exact features_sub_keep)
  have hvals : colVals
      (⟨features, raw.rows.map (fun r => projRow raw.cols features r)⟩ :
        DataFrame) c = colVals raw c := colVals_project hc h3
  have hlen : (keptCols (⟨features,
      raw.rows.map (fun r => projRow raw.cols features r)⟩ :
        DataFrame)).length ≠ features.length := by
    intro heq
    have hk := keptCols_eq rfl heq
    have hcmem : c ∈ keptCols (⟨features,
        raw.rows.map (fun r => projRow raw.cols features r)⟩ : DataFrame) := by
      rw [hk]
      exact hc
    unfold keptCols at hcmem
    rw [List.mem_filter] at hcmem
    have hb := hcmem.2
    rw [hvals, hall] at hb
    simp at hb
  have h4 : rebuild (⟨features,
      raw.rows.map (fun r => projRow raw.cols features r)⟩ : DataFrame) =
        none := rebuild_eq_none hlen
  have hr : run dfs = Res.err PErr.shapeMismatch := by
    simp only [run, h1, h2, h3, h4]
  exact ⟨hr, by rw [hr]; rfl⟩

/-- C10 witness: a one-row input whose `h1h2` column is missing makes the
run abort on the shape mismatch, with no imputed output. -/
theorem claim_C10_witness :
    run [exDrop] = Res.err PErr.shapeMismatch ∧
    getFinal (run [exDrop]) = none :=
  claim_C10_all_missing_aborts [exDrop] exDrop exDrop "h1h2"
    (by with_unfolding_all rfl) (by with_unfolding_all rfl) (by decide)
    (by with_unfolding_all rfl)

end VoiceConcat
